import Mathlib

/-!
Verification development for the GMC compliance-audit engine
(`gmc_web_app.py` and `gmc_guardian/engine.py`).

The Python code is shallowly embedded: pure string/list manipulation is
translated to executable Lean functions over `String` (a structure over
`List Char`), the HTTP session is an oracle `String → Except String Html`
(`.error e` models the `requests` call raising an exception with message
`e`; a response whose `statusOk` is `false` models an HTTP error status,
on which `raise_for_status()` raises with message `statusErr`), and HTML
parsing (an external collaborator, BeautifulSoup) is modelled by the
`Html` structure carrying the parsed views the engine reads: the raw
response text, the tag-stripped visible text, and the anchor `href` list
in document order.

Python's `str.lower`/`str.strip` are modelled over ASCII (the rule
keywords and URL schemes the engine compares against are ASCII).
Python `set` iteration order is hash-dependent and unspecified; it is
modelled by an explicit order parameter constrained to permutations.
The network is deterministic within one audit run: the same URL fetched
twice yields the same outcome (the code fetches the seed URL twice, once
directly and once inside `audit_page`).
-/

/-- Substring test on character lists: `subL needle hay` is `true` iff
`needle` occurs contiguously inside `hay`.  Models Python's `in` on `str`
and `re.search` for pattern strings without metacharacters. -/
def subL (needle : List Char) : List Char → Bool
  | [] => needle.isEmpty
  | c :: t => needle.isPrefixOf (c :: t) || subL needle t

/-- `strContains hay needle` models Python `needle in hay`. -/
def strContains (hay needle : String) : Bool := subL needle.data hay.data

/-- `strStarts s p` models Python `s.startswith(p)`. -/
def strStarts (s p : String) : Bool := p.data.isPrefixOf s.data

/-- `strEnds s p` models Python `s.endswith(p)`. -/
def strEnds (s p : String) : Bool := p.data.reverse.isPrefixOf s.data.reverse

/-- Models Python `sep.join(parts)`. -/
def joinSep (sep : String) : List String → String
  | [] => ""
  | [x] => x
  | x :: y :: r => x ++ sep ++ joinSep sep (y :: r)

/-- ASCII uppercase-to-lowercase table, modelling Python `str.lower()`
for the ASCII range (the engine only compares against ASCII keywords). -/
def lowerPairs : List (Char × Char) :=
  [('A','a'),('B','b'),('C','c'),('D','d'),('E','e'),('F','f'),('G','g'),
   ('H','h'),('I','i'),('J','j'),('K','k'),('L','l'),('M','m'),('N','n'),
   ('O','o'),('P','p'),('Q','q'),('R','r'),('S','s'),('T','t'),('U','u'),
   ('V','v'),('W','w'),('X','x'),('Y','y'),('Z','z')]

def lowerChar (c : Char) : Char := (List.lookup c lowerPairs).getD c

def lowerL (l : List Char) : List Char := l.map lowerChar

/-- Models Python `s.lower()` (ASCII range). -/
def lowerStr (s : String) : String := ⟨lowerL s.data⟩

/-- Models Python `s.strip()` (ASCII whitespace). -/
def stripWs (l : List Char) : List Char :=
  ((l.dropWhile Char.isWhitespace).reverse.dropWhile Char.isWhitespace).reverse

/-- Models Python `s.rstrip('/')`. -/
def rstripSlashL (l : List Char) : List Char :=
  (l.reverse.dropWhile (· == '/')).reverse

/-- Scheme test used by `_normalize_url`: models
`url.startswith(('http://', 'https://'))`. -/
def startsHttp (l : List Char) : Bool :=
  "http://".data.isPrefixOf l || "https://".data.isPrefixOf l

/-- Embedding of `GMCScannerEngine._normalize_url` (identical in
`gmc_web_app.py` lines 46-50 and `gmc_guardian/engine.py` lines 23-26):
strip whitespace, lowercase, default the scheme to `https://`, strip
trailing slashes. -/
def normData (l : List Char) : List Char :=
  let u := lowerL (stripWs l)
  let w := if startsHttp u then u else "https://".data ++ u
  rstripSlashL w

def normalizeUrl (url : String) : String := ⟨normData url.data⟩

/-- Trailing-whitespace test on the modelled strings. -/
def noTrailingWs (s : String) : Bool :=
  match s.data.reverse with
  | [] => true
  | c :: _ => !c.isWhitespace

/-- Red-flag patterns: every pattern in the source catalogs is a literal
string except `r'\bfree money\b'`, which uses word boundaries. -/
inductive RedFlag where
  | lit (s : String)
  | wb (s : String)
deriving DecidableEq

/-- Python regex word character (ASCII part of `\w`). -/
def wordChar (c : Char) : Bool := c.isAlpha || c.isDigit || c == '_'

/-- `wbAt prev t s` holds when `s` occurs at the head of `t` with a word
boundary on each side; `prev` is the character just before `t`, if any. -/
def wbAt (prev : Option Char) (t s : List Char) : Bool :=
  s.isPrefixOf t &&
    (match prev with | none => true | some c => !wordChar c) &&
    (match (t.drop s.length).head? with | none => true | some c => !wordChar c)

def wbScan (s : List Char) : Option Char → List Char → Bool
  | prev, [] => wbAt prev [] s
  | prev, c :: r => wbAt prev (c :: r) s || wbScan s (some c) r

/-- The regex source text of a flag, as it appears in the `found` list. -/
def RedFlag.src : RedFlag → String
  | .lit s => s
  | .wb s => "\\b" ++ s ++ "\\b"

/-- Models `re.search(flag, text)` for the catalog's patterns. -/
def RedFlag.matches (f : RedFlag) (t : String) : Bool :=
  match f with
  | .lit s => strContains t s
  | .wb s => wbScan s.data none t.data

/-- `self.red_flags` of `gmc_web_app.py` lines 36-44, in source order. -/
def webRedFlags : List RedFlag :=
  [.lit "guaranteed", .lit "miracle", .lit "100% safe", .lit "no risk",
   .lit "weight loss", .lit "get rich", .wb "free money"]

/-- `self.red_flags` of `gmc_guardian/engine.py` lines 17-21, in source order. -/
def engineRedFlags : List RedFlag :=
  [.lit "guaranteed", .lit "miracle", .lit "100% safe", .lit "no risk",
   .lit "weight loss", .lit "get rich", .wb "free money",
   .lit "permanent results", .lit "instant cure",
   .lit "lowest price in the world", .lit "#1 in the world",
   .lit "official store"]

/-- `[flag for flag in self.red_flags if re.search(flag, text)]`. -/
def matchedFlags (flags : List RedFlag) (text : String) : List String :=
  (flags.filter (fun f => f.matches text)).map RedFlag.src

/-- Embedding of `GMCScannerEngine.analyze_text` (`gmc_web_app.py` lines
64-69); the argument is the BeautifulSoup-extracted visible text. -/
def webAnalyzeText (visible : String) : String × String :=
  let text := lowerStr visible
  let found := matchedFlags webRedFlags text
  if found.isEmpty then ("Compliant", "No high-risk claims detected.")
  else ("Risk", "Suspicious terms: " ++ joinSep ", " found)

/-- Embedding of `GMCScannerEngine.analyze_content`
(`gmc_guardian/engine.py` lines 35-39). -/
def engineAnalyzeContent (visible : String) : String × String :=
  let text := lowerStr visible
  let found := matchedFlags engineRedFlags text
  if found.isEmpty then ("Compliant", "Safe")
  else ("Risk", "Flags: " ++ joinSep ", " found)

/-- A fetched page, as seen through the external HTML parser: raw
response text (`res.text`), extracted visible text (`soup.get_text()`),
anchor hrefs in document order, and the HTTP status outcome. -/
structure Html where
  raw : String
  visibleText : String
  hrefs : List String
  statusOk : Bool
  statusErr : String
deriving DecidableEq

def refundKeys : List String := ["refund", "rückgabe", "widerruf", "retour"]

def shippingKeys : List String := ["shipping", "versand", "levering"]

def privacyKeys : List String := ["privacy", "datenschutz", "privacybeleid"]

def termsKeys : List String := ["terms", "agb", "voorwaarden"]

def legalKeys : List String := ["impressum", "legal notice", "colofon"]

/-- Models `any(k in text for k in keys)`. -/
def containsAny (t : String) (keys : List String) : Bool :=
  keys.any (fun k => strContains t k)

def webSchemaMarkers : List String :=
  ["\"@type\":\"product\"", "\"@type\": \"product\"", "schema.org/product"]

def engineSchemaMarkers : List String :=
  ["\"@type\":\"product\"", "schema.org/product"]

def currencyMarkers : List String := ["€", "eur", "$", "£"]

/-- One conditional `issues.append`: the message is emitted when the
check is not satisfied. -/
def maybeIssue (ok : Bool) (m : String) : List String := if ok then [] else [m]

/-- The ordered sequence of conditional `issues.append(...)` statements:
each pair is (check passed, message appended on failure), in source
order. -/
def issuesOf : List (Bool × String) → List String
  | [] => []
  | c :: r => maybeIssue c.1 c.2 ++ issuesOf r

/-- The `is_main` branch checks of the web app's `audit_page` (lines
81-94), in source order: five policy categories, then contact email. -/
def webMainChecks (textLower : String) : List (Bool × String) :=
  [(containsAny textLower refundKeys, "Missing Refund Policy"),
   (containsAny textLower shippingKeys, "Missing Shipping Policy"),
   (containsAny textLower privacyKeys, "Missing Privacy Policy"),
   (containsAny textLower termsKeys, "Missing Terms Policy"),
   (containsAny textLower legalKeys, "Missing Legal Policy"),
   (strContains textLower "@", "No contact email found")]

/-- The product-branch checks of the web app's `audit_page` (lines
95-100): JSON-LD schema, then currency marker. -/
def webProductChecks (textLower : String) : List (Bool × String) :=
  [(containsAny textLower webSchemaMarkers, "Missing JSON-LD Product Schema"),
   (containsAny textLower currencyMarkers, "Currency symbol missing near price")]

/-- Rule evaluation of `GMCScannerEngine.audit_page` (`gmc_web_app.py`
lines 76-102) on successfully fetched content: returns the text verdict
and the ordered issue list.  In this variant the structural issues are
appended first and the red-flag reason is appended last (line 102). -/
def webAuditChecks (h : Html) (isMain : Bool) : String × List String :=
  let textLower := lowerStr h.raw
  let vr := webAnalyzeText h.visibleText
  let checks :=
    (if isMain then webMainChecks textLower else webProductChecks textLower)
      ++ [(!(vr.1 == "Risk"), vr.2)]
  (vr.1, issuesOf checks)

/-- The `is_main` branch checks of `engine.py`'s `audit_page` (lines
52-62), in source order. -/
def engineMainChecks (textLower : String) : List (Bool × String) :=
  [(containsAny textLower refundKeys, "Missing Refund Policy"),
   (containsAny textLower shippingKeys, "Missing Shipping Policy"),
   (containsAny textLower privacyKeys, "Missing Privacy Policy"),
   (containsAny textLower termsKeys, "Missing Terms Policy"),
   (containsAny textLower legalKeys, "Missing Legal Policy"),
   (strContains textLower "@", "No Contact Email")]

/-- The product-branch checks of `engine.py`'s `audit_page` (lines
63-65). -/
def engineProductChecks (textLower : String) : List (Bool × String) :=
  [(containsAny textLower engineSchemaMarkers, "Missing Schema"),
   (containsAny textLower currencyMarkers, "Missing Currency")]

/-- Rule evaluation of `GMCScannerEngine.audit_page`
(`gmc_guardian/engine.py` lines 45-65): in this variant the red-flag
reason is appended first (line 50), before the structural checks. -/
def engineAuditChecks (h : Html) (isMain : Bool) : String × List String :=
  let textLower := lowerStr h.raw
  let vr := engineAnalyzeContent h.visibleText
  let checks :=
    (!(vr.1 == "Risk"), vr.2) ::
      (if isMain then engineMainChecks textLower else engineProductChecks textLower)
  (vr.1, issuesOf checks)

/-- The serialized page row `{url, type, status, text_compliance,
details}`.  `text_compliance` is an `Option` because `engine.py`'s error
rows omit the key entirely (line 73), while the web app's always carry
it. -/
structure PageResult where
  url : String
  type : String
  status : String
  text_compliance : Option String
  details : String
deriving DecidableEq

/-- Embedding of `GMCScannerEngine.audit_page` (`gmc_web_app.py` lines
71-113).  A raised fetch (`.error`) or a failing `raise_for_status`
(`statusOk = false`) lands in the `except` branch (line 113). -/
def webAuditPage (fetch : String → Except String Html) (url : String)
    (isMain : Bool) : PageResult :=
  match fetch url with
  | .error e =>
    { url := url, type := "Error", status := "Error",
      text_compliance := some "N/A", details := "Unreachable: " ++ e }
  | .ok h =>
    if h.statusOk then
      let vi := webAuditChecks h isMain
      { url := url, type := if isMain then "Main" else "Product",
        status := if vi.2.isEmpty then "Pass" else "Fail",
        text_compliance := some vi.1,
        details := if vi.2.isEmpty then "Compliant" else joinSep "; " vi.2 }
    else
      { url := url, type := "Error", status := "Error",
        text_compliance := some "N/A", details := "Unreachable: " ++ h.statusErr }

/-- Embedding of `GMCScannerEngine.audit_page`
(`gmc_guardian/engine.py` lines 41-73).  Its error row has no
`text_compliance` key and its `details` is the bare exception text. -/
def engineAuditPage (fetch : String → Except String Html) (url : String)
    (isMain : Bool) : PageResult :=
  match fetch url with
  | .error e =>
    { url := url, type := "Error", status := "Error",
      text_compliance := none, details := e }
  | .ok h =>
    if h.statusOk then
      let vi := engineAuditChecks h isMain
      { url := url, type := if isMain then "Main" else "Product",
        status := if vi.2.isEmpty then "Pass" else "Fail",
        text_compliance := some vi.1,
        details := if vi.2.isEmpty then "Compliant" else joinSep "; " vi.2 }
    else
      { url := url, type := "Error", status := "Error",
        text_compliance := none, details := h.statusErr }

/-- Embedding of `GMCScannerEngine._calculate_score` (`gmc_web_app.py`
lines 150-153): only rows with status `"Fail"` are counted. -/
def calculateScore (rows : List PageResult) : Int :=
  if rows.isEmpty then 0
  else max 0 (100 - 12 * (rows.countP (fun r => r.status == "Fail") : Int))

/-- The inline score expression of `GMCScannerEngine.scan`
(`gmc_guardian/engine.py` line 88), penalty weight 15. -/
def engineScanScore (rows : List PageResult) : Int :=
  max 0 (100 - 15 * (rows.countP (fun r => r.status == "Fail") : Int))

/-- Modelled from the spec: the claimed failCount "counts Page Results
that carry at least one Finding, including `Unreachable`".  In the
serialized rows these are exactly the rows with status `"Fail"` (fetched
with at least one finding) or `"Error"` (Unreachable, carrying the single
fetch-failure finding). -/
def specScoreInclUnreachable (rows : List PageResult) : Int :=
  max 0 (100 - 12 *
    (rows.countP (fun r => r.status == "Fail" || r.status == "Error") : Int))

/-- Modelled from the spec: same-site means the host "equals (or is a
subdomain-consistent match of)" the audit host. -/
def specSameSite (host domain : String) : Bool :=
  host == domain || strEnds host ("." ++ domain)

/-- The external collaborators the engine constructor and link extractor
call: `urljoin` (resolve a href against a base), `urlparse(...).netloc`
(host of a URL), and the iteration order CPython's string-keyed `set`
happens to produce (`list(links)`), constrained to permutations. -/
structure Env where
  resolve : String → String → String
  host : String → String
  setOrder : List String → List String

/-- The state `GMCScannerEngine.__init__` derives from the input URL. -/
structure Engine where
  baseUrl : String
  domain : String

def mkEngine (env : Env) (url : String) : Engine :=
  let b := normalizeUrl url
  { baseUrl := b, domain := env.host b }

def MAX_PRODUCT_PAGES : Nat := 5

/-- The link filter of `get_product_links` (`gmc_web_app.py` line 120):
the audit domain must occur as a substring of the resolved URL's netloc,
and the resolved URL must contain a product-path marker. -/
def linkCond (env : Env) (eng : Engine) (full : String) : Bool :=
  strContains (env.host full) eng.domain &&
    (strContains full "/products/" || strContains full "/product/")

/-- The collection loop of `get_product_links` (lines 117-122): add each
qualifying resolved link to the set, break once the set holds
`MAX_PRODUCT_PAGES` links.  The accumulator tracks the set's contents in
insertion order (the contents are order-independent; only `list(links)`
iteration order is unspecified, see `getProductLinks`). -/
def collectLinks (cond : String → Bool) (res1 : String → String) :
    List String → List String → List String
  | acc, [] => acc
  | acc, a :: rest =>
    let full := res1 a
    let acc2 := if cond full && !(acc.contains full) then acc ++ [full] else acc
    if MAX_PRODUCT_PAGES ≤ acc2.length then acc2
    else collectLinks cond res1 acc2 rest

/-- The contents of the `links` set when the loop ends, listed in first
insertion order. -/
def getProductLinksCore (env : Env) (eng : Engine) (hrefs : List String) :
    List String :=
  collectLinks (linkCond env eng) (env.resolve eng.baseUrl) [] hrefs

/-- Embedding of `GMCScannerEngine.get_product_links` (lines 115-123):
`return list(links)` — the set contents in whatever iteration order the
hash seed produces, modelled by `env.setOrder`. -/
def getProductLinks (env : Env) (eng : Engine) (hrefs : List String) :
    List String :=
  env.setOrder (getProductLinksCore env eng hrefs)

/-- `ThreadPoolExecutor.map` with an explicit completion schedule:
`sched` lists the slot indices in the order the concurrent workers
finish; each worker writes its own slot `(i, f xs[i])`, and the final
list is read back in input-index order, as `executor.map` guarantees. -/
def executorMapSched {α β : Type} (f : α → β) (xs : List α)
    (sched : List Nat) : List β :=
  let results := sched.filterMap (fun i => (xs.get? i).map (fun a => (i, f a)))
  (List.range xs.length).filterMap (fun i => List.lookup i results)

/-- The audit report `{domain, score, rows}` (the timestamp is an
external clock value and is not modelled). -/
structure Report where
  domain : String
  score : Int
  rows : List PageResult
deriving DecidableEq

/-- Embedding of `GMCScannerEngine.run_full_audit` (`gmc_web_app.py`
lines 125-148).  The direct `self.session.get(self.base_url)` on line
128 is outside `audit_page`; if it raises, the exception reaches the
outer `except` (line 147) and the whole call returns the error object.
The webhook logging is a no-op (`WEBHOOK_URL = ""`). -/
def runFullAudit (env : Env) (eng : Engine)
    (fetch : String → Except String Html) : Except String Report :=
  match fetch eng.baseUrl with
  | .error e => .error ("Critical failure: " ++ e)
  | .ok mainHtml =>
    let mainData := webAuditPage fetch eng.baseUrl true
    let links := getProductLinks env eng mainHtml.hrefs
    let rows := mainData :: links.map (fun u => webAuditPage fetch u false)
    .ok { domain := eng.domain, score := calculateScore rows, rows := rows }

/-- `run_full_audit` with the product-page fan-out executed under an
explicit worker completion schedule (see `executorMapSched`). -/
def runFullAuditSched (env : Env) (eng : Engine)
    (fetch : String → Except String Html) (sched : List Nat) :
    Except String Report :=
  match fetch eng.baseUrl with
  | .error e => .error ("Critical failure: " ++ e)
  | .ok mainHtml =>
    let mainData := webAuditPage fetch eng.baseUrl true
    let links := getProductLinks env eng mainHtml.hrefs
    let rows := mainData ::
      executorMapSched (fun u => webAuditPage fetch u false) links sched
    .ok { domain := eng.domain, score := calculateScore rows, rows := rows }

/-- A concrete host extractor for witnesses: text after the scheme, up
to the first slash. -/
def sampleHost (u : String) : String :=
  let rest := if strStarts u "https://" then (⟨u.data.drop 8⟩ : String)
    else if strStarts u "http://" then (⟨u.data.drop 7⟩ : String) else u
  ⟨rest.data.takeWhile (fun c => !(c == '/'))⟩

/-- A concrete environment for witnesses: hrefs are already absolute
(`resolve` returns the href), `setOrder` is the identity. -/
def sampleEnv : Env :=
  { resolve := fun _ h => h, host := sampleHost, setOrder := id }

/-- The same environment under a hash seed whose set iteration order
happens to be reversed insertion order. -/
def revEnv : Env :=
  { resolve := fun _ h => h, host := sampleHost, setOrder := List.reverse }

def emptyHtml : Html :=
  { raw := "", visibleText := "", hrefs := [], statusOk := true, statusErr := "" }

def okFetch (h : Html) : String → Except String Html := fun _ => .ok h

def failFetch (e : String) : String → Except String Html := fun _ => .error e

def sampleEngine : Engine := mkEngine sampleEnv "example.com"

/-- The report `run_full_audit` produces for `example.com` when every
fetch returns an empty page: the home row fails all five policy checks
and the email check, no product links exist, and the score is
100 − 12·1 = 88. -/
def c1Report : Report :=
  { domain := "example.com", score := 88,
    rows := [{ url := "https://example.com", type := "Main", status := "Fail",
               text_compliance := some "Compliant",
               details := "Missing Refund Policy; Missing Shipping Policy; " ++
                 "Missing Privacy Policy; Missing Terms Policy; " ++
                 "Missing Legal Policy; No contact email found" }] }

/-- A page whose visible text carries two red-flag phrases. -/
def riskHtml : Html :=
  { raw := "x", visibleText := "this is 100% safe with guaranteed results",
    hrefs := [], statusOk := true, statusErr := "" }

/-- A product page whose raw text shows a euro-marked price. -/
def euroHtml : Html :=
  { raw := "price €49.99", visibleText := "price only", hrefs := [],
    statusOk := true, statusErr := "" }

/-- A product page whose raw text shows a bare price with no currency
symbol or ISO code. -/
def bareHtml : Html :=
  { raw := "price 49.99", visibleText := "price only", hrefs := [],
    statusOk := true, statusErr := "" }

/-- A home page satisfying every home-page check, with clean visible
text: it produces zero findings. -/
def cleanHtml : Html :=
  { raw := "refund shipping privacy terms impressum mail a@b",
    visibleText := "welcome", hrefs := [], statusOk := true, statusErr := "" }

/-- A home page with two same-host product links, for the ordering
witnesses. -/
def twoLinkHtml : Html :=
  { raw := "", visibleText := "",
    hrefs := ["https://example.com/product/1", "https://example.com/product/2"],
    statusOk := true, statusErr := "" }

def cexEngine : Engine := mkEngine sampleEnv "a.com"

/-- Anchor hrefs of the C3 counterexample page: the first href lives on
host `xa.com`, which merely contains `a.com` as a substring. -/
def cexHrefs : List String :=
  ["https://xa.com/product/1", "https://a.com/product/2"]

/-! ## General lemmas about the string and list helpers -/

theorem subL_iff (needle hay : List Char) :
    subL needle hay = true ↔ ∃ p q, hay = p ++ needle ++ q := by
  induction hay with
  | nil =>
    simp only [subL, List.isEmpty_iff]
    constructor
    · rintro rfl; exact ⟨[], [], rfl⟩
    · rintro ⟨p, q, h⟩
      rcases List.append_eq_nil.mp h.symm with ⟨h1, h2⟩
      exact (List.append_eq_nil.mp h1).2
  | cons c t ih =>
    simp only [subL, Bool.or_eq_true]
    constructor
    · rintro (hp | hs)
      · rcases List.isPrefixOf_iff_prefix.mp hp with ⟨r, hr⟩
        exact ⟨[], r, by simp [hr.symm]⟩
      · rcases ih.mp hs with ⟨p, q, hpq⟩
        exact ⟨c :: p, q, by simp [hpq]⟩
    · rintro ⟨p, q, hpq⟩
      cases p with
      | nil =>
        left
        exact List.isPrefixOf_iff_prefix.mpr ⟨q, by simpa using hpq.symm⟩
      | cons p0 ps =>
        right
        refine ih.mpr ⟨ps, q, ?_⟩
        simpa using (List.cons_eq_cons.mp hpq).2

theorem subL_self (l : List Char) : subL l l = true :=
  (subL_iff l l).mpr ⟨[], [], by simp⟩

theorem subL_of_subL_subL {a b hay : List Char} (h1 : subL b hay = true)
    (h2 : subL a b = true) : subL a hay = true := by
  rcases (subL_iff b hay).mp h1 with ⟨p, q, hpq⟩
  rcases (subL_iff a b).mp h2 with ⟨r, s, hrs⟩
  exact (subL_iff a hay).mpr ⟨p ++ r, s ++ q, by simp [hpq, hrs, List.append_assoc]⟩

theorem subL_append_of_right {n h : List Char} (pre : List Char)
    (hh : subL n h = true) : subL n (pre ++ h) = true := by
  rcases (subL_iff n h).mp hh with ⟨p, q, hpq⟩
  exact (subL_iff n (pre ++ h)).mpr ⟨pre ++ p, q, by simp [hpq, List.append_assoc]⟩

theorem subL_append_of_left {n h : List Char} (post : List Char)
    (hh : subL n h = true) : subL n (h ++ post) = true := by
  rcases (subL_iff n h).mp hh with ⟨p, q, hpq⟩
  exact (subL_iff n (h ++ post)).mpr ⟨p, q ++ post, by simp [hpq, List.append_assoc]⟩

theorem strContains_trans {t a b : String} (h1 : strContains t a = true)
    (h2 : strContains a b = true) : strContains t b = true :=
  subL_of_subL_subL h1 h2

theorem strContains_joinSep (sep : String) :
    ∀ (l : List String) (a : String), a ∈ l →
      strContains (joinSep sep l) a = true := by
  intro l
  induction l with
  | nil => intro a ha; exact absurd ha (List.not_mem_nil a)
  | cons x rest ih =>
    intro a ha
    cases rest with
    | nil =>
      have : a = x := by simpa using ha
      subst this
      exact subL_self a.data
    | cons y r =>
      rcases List.mem_cons.mp ha with rfl | hmem
      · show subL a.data (a ++ sep ++ joinSep sep (y :: r)).data = true
        refine (subL_iff _ _).mpr ⟨[], sep.data ++ (joinSep sep (y :: r)).data, ?_⟩
        simp [String.data_append, List.append_assoc]
      · show subL a.data (x ++ sep ++ joinSep sep (y :: r)).data = true
        have hj := ih a hmem
        have : subL a.data ((x ++ sep).data ++ (joinSep sep (y :: r)).data) = true :=
          subL_append_of_right _ hj
        simpa [String.data_append, List.append_assoc] using this

theorem strStarts_append (p x : String) : strStarts (p ++ x) p = true := by
  unfold strStarts
  exact List.isPrefixOf_iff_prefix.mpr ⟨x.data, by simp [String.data_append]⟩

theorem ne_of_strStarts_false {p s m : String} (heq : m = p ++ s)
    (hm : strStarts m p = false) : False := by
  rw [heq, strStarts_append] at hm
  exact Bool.true_eq_false.mp hm

theorem lookup_mem {α β : Type} [BEq α] [LawfulBEq α] {a : α} {b : β} :
    ∀ {ps : List (α × β)}, List.lookup a ps = some b → (a, b) ∈ ps := by
  intro ps
  induction ps with
  | nil => intro h; simp [List.lookup] at h
  | cons kv rest ih =>
    intro h
    rcases kv with ⟨k, v⟩
    rw [List.lookup_cons] at h
    by_cases hk : a = k
    · subst hk
      simp at h
      subst h
      exact List.mem_cons_self _ _
    · have hbeq : (a == k) = false := beq_false_of_ne hk
      rw [hbeq] at h
      exact List.mem_cons_of_mem _ (ih h)

theorem lowerChar_idem (c : Char) : lowerChar (lowerChar c) = lowerChar c := by
  unfold lowerChar
  cases h : List.lookup c lowerPairs with
  | none => simp [h]
  | some d =>
    have hmem := lookup_mem h
    have hall : ∀ p ∈ lowerPairs, List.lookup p.2 lowerPairs = none := by decide
    have hd := hall (c, d) hmem
    simp only [Option.getD_some]
    simp only at hd
    simp [hd]

theorem lowerChar_slash (c : Char) : (lowerChar c == '/') = (c == '/') := by
  unfold lowerChar
  cases h : List.lookup c lowerPairs with
  | none => simp
  | some d =>
    have hmem := lookup_mem h
    have hall : ∀ p ∈ lowerPairs, ((p.1 == '/') = false ∧ (p.2 == '/') = false) := by decide
    have h1 := (hall (c, d) hmem).1
    have h2 := (hall (c, d) hmem).2
    simp only at h1 h2
    simp [h1, h2]

theorem lowerL_idem (l : List Char) : lowerL (lowerL l) = lowerL l := by
  unfold lowerL
  rw [List.map_map]
  exact List.map_congr_left fun a _ => lowerChar_idem a

theorem dropWhile_head_false {α : Type} (q : α → Bool) :
    ∀ (l : List α) (c : α) (t : List α), l.dropWhile q = c :: t → q c = false := by
  intro l
  induction l with
  | nil => intro c t h; simp [List.dropWhile] at h
  | cons a r ih =>
    intro c t h
    rw [List.dropWhile_cons] at h
    by_cases hq : q a = true
    · rw [if_pos hq] at h; exact ih c t h
    · rw [if_neg hq] at h
      rcases List.cons_eq_cons.mp h with ⟨rfl, _⟩
      exact Bool.eq_false_iff.mpr hq

theorem dropWhile_id_of_head_false {α : Type} (q : α → Bool) (l : List α)
    (h : ∀ c t, l = c :: t → q c = false) : l.dropWhile q = l := by
  cases l with
  | nil => rfl
  | cons a r =>
    rw [List.dropWhile_cons, if_neg]
    simp [h a r rfl]

theorem rstripSlashL_no_trailing (l : List Char) :
    ∀ c t, (rstripSlashL l).reverse = c :: t → (c == '/') = false := by
  intro c t h
  unfold rstripSlashL at h
  rw [List.reverse_reverse] at h
  exact dropWhile_head_false (fun x => x == '/') _ _ _ h

theorem rstripSlashL_id (l : List Char)
    (h : ∀ c t, l.reverse = c :: t → (c == '/') = false) : rstripSlashL l = l := by
  unfold rstripSlashL
  rw [dropWhile_id_of_head_false _ _ h, List.reverse_reverse]

theorem dropWhile_congr_fun {α : Type} {p q : α → Bool} (h : ∀ a, p a = q a) :
    ∀ l : List α, l.dropWhile p = l.dropWhile q := by
  intro l
  induction l with
  | nil => rfl
  | cons a r ih =>
    rw [List.dropWhile_cons, List.dropWhile_cons, h a]
    split <;> simp [ih]

theorem rstripSlashL_lowerL (l : List Char) :
    rstripSlashL (lowerL l) = lowerL (rstripSlashL l) := by
  show (List.dropWhile (· == '/') (List.map lowerChar l).reverse).reverse
      = List.map lowerChar (List.dropWhile (· == '/') l.reverse).reverse
  rw [← List.map_reverse, List.dropWhile_map, List.map_reverse]
  have hcongr : List.dropWhile ((fun x => x == '/') ∘ lowerChar) l.reverse
      = List.dropWhile (fun x => x == '/') l.reverse :=
    dropWhile_congr_fun (fun a => by simp [Function.comp, lowerChar_slash a]) _
  rw [hcongr]

theorem isPrefixOf_single_false {c : Char} {l : List Char}
    (h : ∀ d t, l = d :: t → (d == c) = false) : [c].isPrefixOf l = false := by
  cases l with
  | nil => rfl
  | cons d t =>
    have hd : (d == c) = false := h d t rfl
    have : (c == d) = false := by
      have : d ≠ c := by simpa using hd
      exact beq_false_of_ne (Ne.symm this)
    simp [List.isPrefixOf, this]

theorem normData_no_trailing_slash (l : List Char) :
    ∀ d t, (normData l).reverse = d :: t → (d == '/') = false := by
  intro d t h
  exact rstripSlashL_no_trailing _ d t h

theorem strEnds_slash_normalize (u : String) : strEnds (normalizeUrl u) "/" = false := by
  show ("/".data.reverse).isPrefixOf (normData u.data).reverse = false
  have : ("/".data.reverse) = ['/'] := rfl
  rw [this]
  exact isPrefixOf_single_false (normData_no_trailing_slash u.data)

theorem startsHttp_head {v : List Char} (h : startsHttp v = true) :
    ∃ t, v = 'h' :: t := by
  rcases Bool.or_eq_true_iff.mp h with hp | hp
  all_goals {
    rcases List.isPrefixOf_iff_prefix.mp hp with ⟨r, hr⟩
    exact ⟨_, by rw [← hr]; rfl⟩
  }

theorem stripWs_id (l : List Char)
    (h1 : ∀ d t, l = d :: t → d.isWhitespace = false)
    (h2 : ∀ d t, l.reverse = d :: t → d.isWhitespace = false) : stripWs l = l := by
  unfold stripWs
  rw [dropWhile_id_of_head_false _ _ h1, dropWhile_id_of_head_false _ _ h2,
    List.reverse_reverse]

theorem lowerL_normData (l : List Char) : lowerL (normData l) = normData l := by
  unfold normData
  rw [← rstripSlashL_lowerL]
  congr 1
  split
  · exact lowerL_idem _
  · unfold lowerL
    have h1 : List.map lowerChar "https://".data = "https://".data := by decide
    have h2 : List.map lowerChar (List.map lowerChar (stripWs l))
        = List.map lowerChar (stripWs l) := lowerL_idem (stripWs l)
    rw [List.map_append, h1, h2]

theorem maybeIssue_false (m : String) : maybeIssue false m = [m] := rfl

theorem maybeIssue_true (m : String) : maybeIssue true m = [] := rfl

theorem issuesOf_sublist (checks : List (Bool × String)) :
    (issuesOf checks).Sublist (checks.map Prod.snd) := by
  induction checks with
  | nil => exact List.nil_sublist _
  | cons c r ih =>
    show (maybeIssue c.1 c.2 ++ issuesOf r).Sublist (c.2 :: r.map Prod.snd)
    cases hc : c.1 with
    | false =>
      rw [maybeIssue_false, List.singleton_append]
      exact List.Sublist.cons₂ _ ih
    | true =>
      rw [maybeIssue_true, List.nil_append]
      exact List.Sublist.cons _ ih

theorem mem_issuesOf {x : String} :
    ∀ {checks : List (Bool × String)},
      x ∈ issuesOf checks ↔ ∃ c ∈ checks, c.1 = false ∧ c.2 = x := by
  intro checks
  induction checks with
  | nil => simp [issuesOf]
  | cons c r ih =>
    show x ∈ maybeIssue c.1 c.2 ++ issuesOf r ↔ _
    cases hc : c.1 with
    | false =>
      rw [maybeIssue_false, List.singleton_append]
      constructor
      · intro h
        rcases List.mem_cons.mp h with rfl | hm
        · exact ⟨c, List.mem_cons_self _ _, hc, rfl⟩
        · rcases ih.mp hm with ⟨d, hd, h1, h2⟩
          exact ⟨d, List.mem_cons_of_mem _ hd, h1, h2⟩
      · rintro ⟨d, hd, h1, h2⟩
        rcases List.mem_cons.mp hd with rfl | hd'
        · rw [← h2]; exact List.mem_cons_self _ _
        · exact List.mem_cons_of_mem _ (ih.mpr ⟨d, hd', h1, h2⟩)
    | true =>
      rw [maybeIssue_true, List.nil_append, ih]
      constructor
      · rintro ⟨d, hd, h1, h2⟩
        exact ⟨d, List.mem_cons_of_mem _ hd, h1, h2⟩
      · rintro ⟨d, hd, h1, h2⟩
        rcases List.mem_cons.mp hd with rfl | hd'
        · rw [hc] at h1; exact absurd h1 (by simp)
        · exact ⟨d, hd', h1, h2⟩

theorem countP_issuesOf (p : String → Bool) :
    ∀ (checks : List (Bool × String)),
      (issuesOf checks).countP p = checks.countP (fun c => !c.1 && p c.2) := by
  intro checks
  induction checks with
  | nil => rfl
  | cons c r ih =>
    show (maybeIssue c.1 c.2 ++ issuesOf r).countP p = _
    rw [List.countP_append, List.countP_cons, ih]
    cases hc : c.1 with
    | false =>
      rw [maybeIssue_false]
      simp only [Bool.not_false, Bool.true_and]
      rw [List.countP_cons, List.countP_nil]
      omega
    | true =>
      rw [maybeIssue_true]
      simp only [Bool.not_true, Bool.false_and, List.countP_nil]
      simp

/-! ## C10: URL normalization -/

/-- C10 counterexample: normalization is not idempotent and does not
always yield a scheme-qualified URL.  The input `"/"` normalizes to
`"https:"` (the scheme default produces `"https:///"`, then `rstrip('/')`
eats into the scheme separator), which re-normalizes to
`"https://https:"`, and `"https:"` starts with neither scheme. -/
theorem C10_cex :
    normalizeUrl (normalizeUrl "/") ≠ normalizeUrl "/" ∧
    strStarts (normalizeUrl "/") "http://" = false ∧
    strStarts (normalizeUrl "/") "https://" = false := by decide

theorem normalizeUrl_mk (l : List Char) : normalizeUrl ⟨l⟩ = ⟨normData l⟩ := rfl

theorem normalizeUrl_eq_mk (u : String) : normalizeUrl u = ⟨normData u.data⟩ := rfl

theorem normData_eq (l : List Char) :
    normData l = rstripSlashL (if startsHttp (lowerL (stripWs l))
      then lowerL (stripWs l) else "https://".data ++ lowerL (stripWs l)) := rfl

theorem normData_idem (l : List Char)
    (hsh : startsHttp (normData l) = true)
    (htrail : ∀ d s, (normData l).reverse = d :: s → d.isWhitespace = false) :
    normData (normData l) = normData l := by
  have hhead : ∀ d s, normData l = d :: s → d.isWhitespace = false := by
    intro d s hds
    rcases startsHttp_head hsh with ⟨t, ht⟩
    rw [ht] at hds
    have hd : d = 'h' := (List.cons_eq_cons.mp hds.symm).1
    rw [hd]; decide
  have hstrip : stripWs (normData l) = normData l := stripWs_id _ hhead htrail
  have hlower : lowerL (normData l) = normData l := lowerL_normData l
  have hslash : rstripSlashL (normData l) = normData l :=
    rstripSlashL_id _ (normData_no_trailing_slash l)
  rw [normData_eq (normData l), hstrip, hlower, if_pos hsh, hslash]

/-- C10 (corrected): every normalized URL is free of trailing slashes,
and normalization is idempotent on every input whose normalized form is
scheme-qualified and has no trailing whitespace (the original claim's
unconditional idempotence and scheme-prefix guarantee fail, see
`C10_cex`). -/
theorem C10_normalize_idempotent_conditional (u : String) :
    strEnds (normalizeUrl u) "/" = false ∧
    ((strStarts (normalizeUrl u) "http://" ||
        strStarts (normalizeUrl u) "https://") = true →
      noTrailingWs (normalizeUrl u) = true →
      normalizeUrl (normalizeUrl u) = normalizeUrl u) := by
  refine ⟨strEnds_slash_normalize u, ?_⟩
  intro hs hw
  rw [normalizeUrl_eq_mk u] at hs hw ⊢
  rw [normalizeUrl_mk (normData u.data)]
  refine congrArg String.mk (normData_idem u.data ?_ ?_)
  · exact hs
  · intro d s hds
    have hw' : (match (normData u.data).reverse with
      | [] => true
      | c :: _ => !c.isWhitespace) = true := hw
    rw [hds] at hw'
    simpa using hw'

/-- C10 witness: a concrete input satisfying the amended hypotheses, on
which normalization is idempotent. -/
theorem C10_witness :
    (strStarts (normalizeUrl "Example.com/Shop/") "http://" ||
      strStarts (normalizeUrl "Example.com/Shop/") "https://") = true ∧
    noTrailingWs (normalizeUrl "Example.com/Shop/") = true ∧
    normalizeUrl (normalizeUrl "Example.com/Shop/") = normalizeUrl "Example.com/Shop/" :=
  ⟨by decide, by decide,
    (C10_normalize_idempotent_conditional "Example.com/Shop/").2 (by decide) (by decide)⟩

/-! ## C1: scoring -/

theorem calculateScore_cons (r : PageResult) (rows : List PageResult) :
    calculateScore (r :: rows) =
      max 0 (100 - 12 * (((r :: rows).countP (fun x => x.status == "Fail")) : Int)) := by
  unfold calculateScore
  rw [if_neg (by simp)]

theorem calculateScore_bounds (rows : List PageResult) :
    0 ≤ calculateScore rows ∧ calculateScore rows ≤ 100 := by
  unfold calculateScore
  split
  · exact ⟨le_refl 0, by norm_num⟩
  · have hk : (0 : Int) ≤ ((rows.countP (fun r => r.status == "Fail")) : Int) :=
      Int.natCast_nonneg _
    exact ⟨le_max_left 0 _, max_le (by norm_num) (by omega)⟩

/-- C1 counterexample: an Unreachable row has status `"Error"` and
carries the fetch-failure finding, yet `_calculate_score` counts only
status-`"Fail"` rows.  A report made of one unreachable page scores 100,
while the claimed formula — which counts pages carrying at least one
Finding including Unreachable ones — yields 88. -/
theorem C1_cex :
    calculateScore [webAuditPage (failFetch "timeout") "https://example.com" true] = 100 ∧
    specScoreInclUnreachable
      [webAuditPage (failFetch "timeout") "https://example.com" true] = 88 ∧
    (100 : Int) ≠ 88 := by decide

/-- C1 (corrected): every report `run_full_audit` returns has score
`max(0, 100 − 12·failCount)` where `failCount` counts the rows with
status `"Fail"` — successfully fetched pages carrying at least one
Finding.  Unreachable rows (status `"Error"`) are NOT counted.  The
score always lies in [0, 100]. -/
theorem C1_score_formula (env : Env) (eng : Engine)
    (fetch : String → Except String Html) (rep : Report)
    (h : runFullAudit env eng fetch = Except.ok rep) :
    rep.score =
      max 0 (100 - 12 * ((rep.rows.countP (fun r => r.status == "Fail")) : Int)) ∧
    0 ≤ rep.score ∧ rep.score ≤ 100 := by
  revert h
  unfold runFullAudit
  cases hf : fetch eng.baseUrl with
  | error e => intro h; exact absurd h (by simp)
  | ok mainHtml =>
    intro h
    simp only [Except.ok.injEq] at h
    subst h
    constructor
    · exact calculateScore_cons _ _
    · exact calculateScore_bounds (webAuditPage fetch eng.baseUrl true ::
        (getProductLinks env eng mainHtml.hrefs).map (fun u => webAuditPage fetch u false))

/-- C1 witness: the corrected formula evaluated on a concrete audit run
(one failing home row, no product rows): score 88 ∈ [0, 100]. -/
theorem C1_score_formula_witness :
    runFullAudit sampleEnv sampleEngine (okFetch emptyHtml) = Except.ok c1Report ∧
    (c1Report.score =
      max 0 (100 - 12 * ((c1Report.rows.countP (fun r => r.status == "Fail")) : Int)) ∧
    0 ≤ c1Report.score ∧ c1Report.score ≤ 100) :=
  ⟨by rfl,
    C1_score_formula sampleEnv sampleEngine (okFetch emptyHtml) c1Report (by rfl)⟩

/-! ## C2: partial-failure behavior of the full audit -/

/-- C2 counterexample: the seed URL `"example.com"` normalizes
successfully, yet when the seed-page GET raises, `run_full_audit`
returns the error object (line 148), not a degraded report with an
Unreachable home row — the audit fails outright. -/
theorem C2_cex :
    normalizeUrl "example.com" = "https://example.com" ∧
    runFullAudit sampleEnv sampleEngine (failFetch "connection refused")
      = Except.error "Critical failure: connection refused" :=
  ⟨rfl, rfl⟩

/-- C2 (corrected): if the seed-page GET itself raises, `run_full_audit`
returns a single error value instead of a report (the direct
`session.get` on line 128 is outside `audit_page`, so the outer `except`
catches it); if the seed GET returns a response — even one with an HTTP
error status — the audit completes with a well-formed report whose first
row is the home-page result, which is degraded to status `"Error"` with
an `"Unreachable: ..."` detail when `raise_for_status` fails.  Product
rows are each computed independently from their own fetch. -/
theorem C2_seed_fetch (env : Env) (eng : Engine)
    (fetch : String → Except String Html) :
    (∀ e, fetch eng.baseUrl = Except.error e →
      runFullAudit env eng fetch = Except.error ("Critical failure: " ++ e)) ∧
    (∀ mainHtml, fetch eng.baseUrl = Except.ok mainHtml →
      runFullAudit env eng fetch = Except.ok
        { domain := eng.domain,
          score := calculateScore (webAuditPage fetch eng.baseUrl true ::
            (getProductLinks env eng mainHtml.hrefs).map
              (fun u => webAuditPage fetch u false)),
          rows := webAuditPage fetch eng.baseUrl true ::
            (getProductLinks env eng mainHtml.hrefs).map
              (fun u => webAuditPage fetch u false) } ∧
      (mainHtml.statusOk = false →
        (webAuditPage fetch eng.baseUrl true).status = "Error" ∧
        (webAuditPage fetch eng.baseUrl true).details
          = "Unreachable: " ++ mainHtml.statusErr)) := by
  constructor
  · intro e he
    unfold runFullAudit
    rw [he]
  · intro mainHtml hm
    constructor
    · unfold runFullAudit
      rw [hm]
    · intro hs
      unfold webAuditPage
      rw [hm]
      simp [hs]

/-- C2 witness: the two behaviors at concrete inputs — a raising seed
fetch aborts with the error object; a succeeding one yields a report. -/
theorem C2_seed_fetch_witness :
    runFullAudit sampleEnv sampleEngine (failFetch "boom")
      = Except.error ("Critical failure: " ++ "boom") ∧
    (runFullAudit sampleEnv sampleEngine (okFetch emptyHtml)).isOk = true :=
  ⟨(C2_seed_fetch sampleEnv sampleEngine (failFetch "boom")).1 "boom" rfl,
   by
    rw [((C2_seed_fetch sampleEnv sampleEngine (okFetch emptyHtml)).2 emptyHtml rfl).1]
    rfl⟩

/-! ## C3: product-link extraction -/

theorem collectLinks_nil (cond : String → Bool) (res1 : String → String)
    (acc : List String) : collectLinks cond res1 acc [] = acc := rfl

theorem collectLinks_cons (cond : String → Bool) (res1 : String → String)
    (acc : List String) (a : String) (rest : List String) :
    collectLinks cond res1 acc (a :: rest) =
      (if MAX_PRODUCT_PAGES ≤
          (if cond (res1 a) && !(acc.contains (res1 a))
            then acc ++ [res1 a] else acc).length
       then (if cond (res1 a) && !(acc.contains (res1 a))
            then acc ++ [res1 a] else acc)
       else collectLinks cond res1
        (if cond (res1 a) && !(acc.contains (res1 a))
            then acc ++ [res1 a] else acc) rest) := rfl

theorem collectLinks_spec (cond : String → Bool) (res1 : String → String) :
    ∀ (hrefs acc : List String),
      acc.length < MAX_PRODUCT_PAGES → acc.Nodup →
      (∀ u ∈ acc, cond u = true ∧ ∃ a, u = res1 a) →
      (collectLinks cond res1 acc hrefs).length ≤ MAX_PRODUCT_PAGES ∧
      (collectLinks cond res1 acc hrefs).Nodup ∧
      (∀ u ∈ collectLinks cond res1 acc hrefs, cond u = true ∧ ∃ a, u = res1 a) := by
  intro hrefs
  induction hrefs with
  | nil =>
    intro acc h1 h2 h3
    rw [collectLinks_nil]
    exact ⟨le_of_lt h1, h2, h3⟩
  | cons a rest ih =>
    intro acc h1 h2 h3
    rw [collectLinks_cons]
    by_cases hc : (cond (res1 a) && !(acc.contains (res1 a))) = true
    · simp only [if_pos hc]
      have h45 : cond (res1 a) = true ∧ acc.contains (res1 a) = false := by
        simpa using hc
      have hnd : (acc ++ [res1 a]).Nodup := by
        rw [List.nodup_append]
        refine ⟨h2, List.nodup_singleton _, ?_⟩
        intro x hx hx2
        have hx3 : x = res1 a := by simpa using hx2
        rw [hx3] at hx
        have hct : acc.contains (res1 a) = true := by
          simp only [List.contains]
          exact List.elem_iff.mpr hx
        rw [h45.2] at hct
        exact Bool.false_ne_true hct
      have hprop : ∀ u ∈ acc ++ [res1 a], cond u = true ∧ ∃ b, u = res1 b := by
        intro u hu
        rcases List.mem_append.mp hu with h | h
        · exact h3 u h
        · have : u = res1 a := by simpa using h
          subst this
          exact ⟨h45.1, ⟨a, rfl⟩⟩
      by_cases hlim : MAX_PRODUCT_PAGES ≤ (acc ++ [res1 a]).length
      · rw [if_pos hlim]
        have : (acc ++ [res1 a]).length = acc.length + 1 := by simp
        exact ⟨by omega, hnd, hprop⟩
      · rw [if_neg hlim]
        exact ih (acc ++ [res1 a]) (by omega) hnd hprop
    · simp only [if_neg hc]
      by_cases hlim : MAX_PRODUCT_PAGES ≤ acc.length
      · exact absurd hlim (by omega)
      · rw [if_neg hlim]
        exact ih acc h1 h2 h3

/-- C3 counterexample: (a) same-site filtering is substring host
containment — for audit domain `a.com` the link on host `xa.com` is
kept, though it is not the same site; (b) `list(links)` yields the set
in hash-dependent iteration order — under a seed whose iteration order
is reversed insertion order (an admissible permutation of the set's
contents), the returned list is not in document order of first
occurrence. -/
theorem C3_cex :
    ("https://xa.com/product/1" ∈ getProductLinks sampleEnv cexEngine cexHrefs ∧
      specSameSite (sampleEnv.host "https://xa.com/product/1") cexEngine.domain
        = false) ∧
    (getProductLinks revEnv cexEngine cexHrefs
        ≠ getProductLinksCore sampleEnv cexEngine cexHrefs ∧
      (getProductLinks revEnv cexEngine cexHrefs).Perm
        (getProductLinksCore sampleEnv cexEngine cexHrefs)) := by
  refine ⟨⟨by decide, by decide⟩, ⟨by decide, by decide⟩⟩

/-- C3 (corrected): for every set iteration order (any permutation of
the set contents), `get_product_links` returns at most
`MAX_PRODUCT_PAGES` distinct links, each a resolved href whose host
contains the audit domain as a substring and whose URL contains a
product-path marker; the first-k contents are deterministic, but the
output order is the set's iteration order, not necessarily document
order (see `C3_cex`). -/
theorem C3_link_extraction (env : Env) (eng : Engine) (hrefs : List String)
    (hperm : ∀ l : List String, (env.setOrder l).Perm l) :
    (getProductLinks env eng hrefs).length ≤ MAX_PRODUCT_PAGES ∧
    (getProductLinks env eng hrefs).Nodup ∧
    ∀ u ∈ getProductLinks env eng hrefs,
      linkCond env eng u = true ∧ ∃ a, u = env.resolve eng.baseUrl a := by
  have hcore := collectLinks_spec (linkCond env eng) (env.resolve eng.baseUrl)
    hrefs [] (by simp [MAX_PRODUCT_PAGES]) List.nodup_nil
    (by intro u hu; exact absurd hu (List.not_mem_nil u))
  have hp := hperm (getProductLinksCore env eng hrefs)
  refine ⟨?_, ?_, ?_⟩
  · show (env.setOrder (getProductLinksCore env eng hrefs)).length ≤ _
    rw [hp.length_eq]
    exact hcore.1
  · exact hcore.2.1.perm hp.symm
  · intro u hu
    exact hcore.2.2 u (hp.mem_iff.mp hu)

/-- C3 witness: the bound evaluated at the counterexample page under the
identity iteration order. -/
theorem C3_link_extraction_witness :
    (getProductLinks sampleEnv cexEngine cexHrefs).length ≤ MAX_PRODUCT_PAGES :=
  (C3_link_extraction sampleEnv cexEngine cexHrefs (fun l => List.Perm.refl l)).1

/-! ## C4: serialized row shape -/

theorem webAnalyzeText_fst (v : String) :
    (webAnalyzeText v).1 = "Compliant" ∨ (webAnalyzeText v).1 = "Risk" := by
  unfold webAnalyzeText
  dsimp only
  split
  · exact Or.inl rfl
  · exact Or.inr rfl

theorem engineAnalyzeContent_fst (v : String) :
    (engineAnalyzeContent v).1 = "Compliant" ∨ (engineAnalyzeContent v).1 = "Risk" := by
  unfold engineAnalyzeContent
  dsimp only
  split
  · exact Or.inl rfl
  · exact Or.inr rfl

/-- C4 counterexample: (a) home rows serialize with `type` `"Main"`, not
`"Home"`; (b) a zero-finding page's `details` is the literal
`"Compliant"`, not a semicolon-joined rendering of its (empty) finding
list; (c) the `engine.py` variant's error rows omit `text_compliance`
entirely. -/
theorem C4_cex :
    (webAuditPage (okFetch cleanHtml) "https://example.com" true).type = "Main" ∧
    "Main" ∉ (["Home", "Product", "Error"] : List String) ∧
    (webAuditPage (okFetch cleanHtml) "https://example.com" true).details
      = "Compliant" ∧
    joinSep "; " [] = "" ∧
    ("Compliant" : String) ≠ "" ∧
    (engineAuditPage (failFetch "timeout") "https://p" false).text_compliance
      = none := by decide

/-- C4 (corrected): every web-app Page Result serializes with `type` in
`{"Main", "Product", "Error"}` (the home row's type is `"Main"`, not
`"Home"`), `status` in `{"Pass", "Fail", "Error"}`, `text_compliance`
present and in `{"Compliant", "Risk", "N/A"}`, and `details` equal to
the semicolon-joined findings when at least one finding exists, the
literal `"Compliant"` when none, and `"Unreachable: <message>"` on fetch
failure.  The engine-variant rows satisfy the same `type`/`status`
ranges, but their error rows omit `text_compliance` and carry the bare
exception text as `details`. -/
theorem C4_serialization (fetch : String → Except String Html) (url : String)
    (isMain : Bool) :
    ((webAuditPage fetch url isMain).type ∈ (["Main", "Product", "Error"] : List String) ∧
     (webAuditPage fetch url isMain).status ∈ (["Pass", "Fail", "Error"] : List String) ∧
     (webAuditPage fetch url isMain).text_compliance ∈
       ([some "Compliant", some "Risk", some "N/A"] : List (Option String)) ∧
     (webAuditPage fetch url isMain).details =
       (match fetch url with
        | .error e => "Unreachable: " ++ e
        | .ok h =>
          if h.statusOk then
            (if (webAuditChecks h isMain).2.isEmpty then "Compliant"
             else joinSep "; " (webAuditChecks h isMain).2)
          else "Unreachable: " ++ h.statusErr)) ∧
    ((engineAuditPage fetch url isMain).type ∈ (["Main", "Product", "Error"] : List String) ∧
     (engineAuditPage fetch url isMain).status ∈ (["Pass", "Fail", "Error"] : List String) ∧
     (engineAuditPage fetch url isMain).text_compliance =
       (match fetch url with
        | .error _ => none
        | .ok h => if h.statusOk then some (engineAuditChecks h isMain).1 else none) ∧
     (∀ e, fetch url = Except.error e →
        (engineAuditPage fetch url isMain).details = e)) := by
  constructor
  · unfold webAuditPage
    cases hf : fetch url with
    | error e => simp
    | ok h =>
      dsimp only
      by_cases hs : h.statusOk = true
      · simp only [if_pos hs]
        refine ⟨?_, ?_, ?_, ?_⟩
        · cases isMain <;> simp
        · dsimp only
          split <;> simp
        · have := webAnalyzeText_fst h.visibleText
          rcases this with h1 | h1 <;>
            simp [show (webAuditChecks h isMain).1 = (webAnalyzeText h.visibleText).1 from rfl, h1]
        · trivial
      · simp only [if_neg hs]
        have hs' : h.statusOk = false := Bool.eq_false_iff.mpr hs
        simp [hs']
  · unfold engineAuditPage
    cases hf : fetch url with
    | error e => simp
    | ok h =>
      dsimp only
      by_cases hs : h.statusOk = true
      · simp only [if_pos hs]
        refine ⟨?_, ?_, ?_, ?_⟩
        · cases isMain <;> simp
        · dsimp only
          split <;> simp
        · simp [hs]
        · intro e he
          exact absurd he (by simp)
      · simp only [if_neg hs]
        have hs' : h.statusOk = false := Bool.eq_false_iff.mpr hs
        refine ⟨by simp, by simp, by simp [hs'], ?_⟩
        intro e he
        exact absurd he (by simp)

/-- C4 witness: the engine error-row detail equation at a concrete
failing fetch. -/
theorem C4_serialization_witness :
    (engineAuditPage (failFetch "boom") "https://u" true).details = "boom" :=
  (C4_serialization (failFetch "boom") "https://u" true).2.2.2.2 "boom" rfl

/-! ## C5: red-flag scenario -/

theorem strContains_append_right (A B n : String)
    (h : strContains B n = true) : strContains (A ++ B) n = true := by
  show subL n.data (A ++ B).data = true
  rw [String.data_append]
  exact subL_append_of_right _ h

theorem mem_matchedFlags {flags : List RedFlag} {t : String} {f : RedFlag}
    (hf : f ∈ flags) (hm : f.matches t = true) : f.src ∈ matchedFlags flags t :=
  List.mem_map_of_mem RedFlag.src (List.mem_filter.mpr ⟨hf, hm⟩)

theorem webAnalyzeText_risk {v : String}
    (h : matchedFlags webRedFlags (lowerStr v) ≠ []) :
    webAnalyzeText v = ("Risk", "Suspicious terms: " ++
      joinSep ", " (matchedFlags webRedFlags (lowerStr v))) := by
  unfold webAnalyzeText
  dsimp only
  rw [if_neg (fun hh => h (List.isEmpty_iff.mp hh))]

theorem engineAnalyzeContent_risk {v : String}
    (h : matchedFlags engineRedFlags (lowerStr v) ≠ []) :
    engineAnalyzeContent v = ("Risk", "Flags: " ++
      joinSep ", " (matchedFlags engineRedFlags (lowerStr v))) := by
  unfold engineAnalyzeContent
  dsimp only
  rw [if_neg (fun hh => h (List.isEmpty_iff.mp hh))]

theorem webAuditChecks_eq (h : Html) (isMain : Bool) :
    webAuditChecks h isMain =
      ((webAnalyzeText h.visibleText).1,
        issuesOf ((if isMain then webMainChecks (lowerStr h.raw)
            else webProductChecks (lowerStr h.raw))
          ++ [(!((webAnalyzeText h.visibleText).1 == "Risk"),
               (webAnalyzeText h.visibleText).2)])) := rfl

theorem engineAuditChecks_eq (h : Html) (isMain : Bool) :
    engineAuditChecks h isMain =
      ((engineAnalyzeContent h.visibleText).1,
        issuesOf ((!((engineAnalyzeContent h.visibleText).1 == "Risk"),
             (engineAnalyzeContent h.visibleText).2) ::
          (if isMain then engineMainChecks (lowerStr h.raw)
            else engineProductChecks (lowerStr h.raw)))) := rfl

theorem countP_susp_webMainChecks (tl : String) :
    (webMainChecks tl).countP
      (fun c => !c.1 && strStarts c.2 "Suspicious terms: ") = 0 := by
  simp only [webMainChecks, List.countP_cons, List.countP_nil]
  norm_num [show strStarts "Missing Refund Policy" "Suspicious terms: " = false by decide,
    show strStarts "Missing Shipping Policy" "Suspicious terms: " = false by decide,
    show strStarts "Missing Privacy Policy" "Suspicious terms: " = false by decide,
    show strStarts "Missing Terms Policy" "Suspicious terms: " = false by decide,
    show strStarts "Missing Legal Policy" "Suspicious terms: " = false by decide,
    show strStarts "No contact email found" "Suspicious terms: " = false by decide]

theorem countP_susp_webProductChecks (tl : String) :
    (webProductChecks tl).countP
      (fun c => !c.1 && strStarts c.2 "Suspicious terms: ") = 0 := by
  simp only [webProductChecks, List.countP_cons, List.countP_nil]
  norm_num [show strStarts "Missing JSON-LD Product Schema" "Suspicious terms: " = false by decide,
    show strStarts "Currency symbol missing near price" "Suspicious terms: " = false by decide]

/-- C5 (confirmed): on a page whose visible text contains both
`"100% safe"` and `"guaranteed results"`, both rule evaluators return
verdict `Risk` with a detail naming both matched catalog terms
(`guaranteed` and `100% safe`), and the web app's `audit_page` emits
exactly one suspicious-terms finding for the page (either role). -/
theorem C5_redflags (h : Html)
    (h1 : strContains (lowerStr h.visibleText) "100% safe" = true)
    (h2 : strContains (lowerStr h.visibleText) "guaranteed results" = true) :
    ((webAnalyzeText h.visibleText).1 = "Risk" ∧
     strContains (webAnalyzeText h.visibleText).2 "guaranteed" = true ∧
     strContains (webAnalyzeText h.visibleText).2 "100% safe" = true ∧
     (webAuditChecks h false).2.countP
        (fun m => strStarts m "Suspicious terms: ") = 1 ∧
     (webAuditChecks h true).2.countP
        (fun m => strStarts m "Suspicious terms: ") = 1) ∧
    ((engineAnalyzeContent h.visibleText).1 = "Risk" ∧
     strContains (engineAnalyzeContent h.visibleText).2 "guaranteed" = true ∧
     strContains (engineAnalyzeContent h.visibleText).2 "100% safe" = true) := by
  have hg : strContains (lowerStr h.visibleText) "guaranteed" = true :=
    strContains_trans h2 (by decide)
  have hmemG : ("guaranteed" : String) ∈ matchedFlags webRedFlags (lowerStr h.visibleText) :=
    mem_matchedFlags (f := .lit "guaranteed") (by decide) hg
  have hmemS : ("100% safe" : String) ∈ matchedFlags webRedFlags (lowerStr h.visibleText) :=
    mem_matchedFlags (f := .lit "100% safe") (by decide) h1
  have hne : matchedFlags webRedFlags (lowerStr h.visibleText) ≠ [] :=
    List.ne_nil_of_mem hmemG
  have hwr := webAnalyzeText_risk hne
  have hmemGE : ("guaranteed" : String) ∈ matchedFlags engineRedFlags (lowerStr h.visibleText) :=
    mem_matchedFlags (f := .lit "guaranteed") (by decide) hg
  have hmemSE : ("100% safe" : String) ∈ matchedFlags engineRedFlags (lowerStr h.visibleText) :=
    mem_matchedFlags (f := .lit "100% safe") (by decide) h1
  have hneE : matchedFlags engineRedFlags (lowerStr h.visibleText) ≠ [] :=
    List.ne_nil_of_mem hmemGE
  have her := engineAnalyzeContent_risk hneE
  have hcount : ∀ isMain : Bool, (webAuditChecks h isMain).2.countP
      (fun m => strStarts m "Suspicious terms: ") = 1 := by
    intro isMain
    rw [webAuditChecks_eq]
    dsimp only
    rw [countP_issuesOf, List.countP_append]
    have hrisk : (!((webAnalyzeText h.visibleText).1 == "Risk")) = false := by
      rw [hwr]; rfl
    have hsusp : strStarts (webAnalyzeText h.visibleText).2 "Suspicious terms: " = true := by
      rw [hwr]
      exact strStarts_append _ _
    cases isMain with
    | true =>
      rw [if_pos rfl, countP_susp_webMainChecks]
      simp [List.countP_cons, hrisk, hsusp]
    | false =>
      rw [if_neg (by simp), countP_susp_webProductChecks]
      simp [List.countP_cons, hrisk, hsusp]
  refine ⟨⟨?_, ?_, ?_, hcount false, hcount true⟩, ?_, ?_, ?_⟩
  · rw [hwr]
  · rw [hwr]
    exact strContains_append_right _ _ _ (strContains_joinSep _ _ _ hmemG)
  · rw [hwr]
    exact strContains_append_right _ _ _ (strContains_joinSep _ _ _ hmemS)
  · rw [her]
  · rw [her]
    exact strContains_append_right _ _ _ (strContains_joinSep _ _ _ hmemGE)
  · rw [her]
    exact strContains_append_right _ _ _ (strContains_joinSep _ _ _ hmemSE)

/-- C5 witness: the scenario evaluated on a concrete risky page. -/
theorem C5_redflags_witness :
    strContains (lowerStr riskHtml.visibleText) "100% safe" = true ∧
    strContains (lowerStr riskHtml.visibleText) "guaranteed results" = true ∧
    (((webAnalyzeText riskHtml.visibleText).1 = "Risk" ∧
      strContains (webAnalyzeText riskHtml.visibleText).2 "guaranteed" = true ∧
      strContains (webAnalyzeText riskHtml.visibleText).2 "100% safe" = true ∧
      (webAuditChecks riskHtml false).2.countP
         (fun m => strStarts m "Suspicious terms: ") = 1 ∧
      (webAuditChecks riskHtml true).2.countP
         (fun m => strStarts m "Suspicious terms: ") = 1) ∧
     ((engineAnalyzeContent riskHtml.visibleText).1 = "Risk" ∧
      strContains (engineAnalyzeContent riskHtml.visibleText).2 "guaranteed" = true ∧
      strContains (engineAnalyzeContent riskHtml.visibleText).2 "100% safe" = true)) :=
  ⟨by decide, by decide, C5_redflags riskHtml (by decide) (by decide)⟩

/-! ## C6: currency scenario -/

theorem webAnalyzeText_snd (v : String) :
    (webAnalyzeText v).2 = "No high-risk claims detected." ∨
    ∃ rest, (webAnalyzeText v).2 = "Suspicious terms: " ++ rest := by
  unfold webAnalyzeText
  dsimp only
  split
  · exact Or.inl rfl
  · exact Or.inr ⟨_, rfl⟩

/-- C6 (confirmed): with role Product, a page whose lowercased text
contains `"€49.99"` never receives the currency finding, while a page
containing `"49.99"` but none of the recognized markers
(`€`, `eur`, `$`, `£`) always does. -/
theorem C6_currency (h : Html) :
    (strContains (lowerStr h.raw) "€49.99" = true →
      "Currency symbol missing near price" ∉ (webAuditChecks h false).2) ∧
    (strContains (lowerStr h.raw) "49.99" = true →
      strContains (lowerStr h.raw) "€" = false →
      strContains (lowerStr h.raw) "eur" = false →
      strContains (lowerStr h.raw) "$" = false →
      strContains (lowerStr h.raw) "£" = false →
      "Currency symbol missing near price" ∈ (webAuditChecks h false).2) := by
  constructor
  · intro hc hmem
    have heuro : strContains (lowerStr h.raw) "€" = true :=
      strContains_trans hc (by decide)
    have hcur : containsAny (lowerStr h.raw) currencyMarkers = true := by
      unfold containsAny currencyMarkers
      simp only [List.any_eq_true]
      exact ⟨"€", by decide, heuro⟩
    rw [webAuditChecks_eq] at hmem
    dsimp only at hmem
    rcases mem_issuesOf.mp hmem with ⟨c, hcmem, hfalse, hsnd⟩
    rcases List.mem_append.mp hcmem with hin | hin
    · unfold webProductChecks at hin
      rcases List.mem_cons.mp hin with rfl | hin
      · dsimp only at hsnd
        exact absurd hsnd (by decide)
      · rcases List.mem_cons.mp hin with rfl | hin
        · rw [hcur] at hfalse
          exact Bool.true_eq_false.mp hfalse
        · exact absurd hin (List.not_mem_nil _)
    · have hc2 : c = (!((webAnalyzeText h.visibleText).1 == "Risk"),
          (webAnalyzeText h.visibleText).2) := by simpa using hin
      rw [hc2] at hsnd
      dsimp only at hsnd
      rcases webAnalyzeText_snd h.visibleText with hr | ⟨rest, hr⟩
      · rw [hr] at hsnd
        exact absurd hsnd (by decide)
      · rw [hr] at hsnd
        exact ne_of_strStarts_false hsnd.symm (by decide)
  · intro _ h1 h2 h3 h4
    have hcur : containsAny (lowerStr h.raw) currencyMarkers = false := by
      unfold containsAny currencyMarkers
      simp [h1, h2, h3, h4]
    rw [webAuditChecks_eq]
    dsimp only
    refine mem_issuesOf.mpr ⟨(containsAny (lowerStr h.raw) currencyMarkers,
      "Currency symbol missing near price"), ?_, hcur, rfl⟩
    refine List.mem_append.mpr (Or.inl ?_)
    unfold webProductChecks
    exact List.mem_cons_of_mem _ (List.mem_cons_self _ _)

/-- C6 witness: both halves at concrete product pages. -/
theorem C6_currency_witness :
    strContains (lowerStr euroHtml.raw) "€49.99" = true ∧
    "Currency symbol missing near price" ∉ (webAuditChecks euroHtml false).2 ∧
    strContains (lowerStr bareHtml.raw) "49.99" = true ∧
    "Currency symbol missing near price" ∈ (webAuditChecks bareHtml false).2 :=
  ⟨by decide, (C6_currency euroHtml).1 (by decide), by decide,
    (C6_currency bareHtml).2 (by decide) (by decide) (by decide) (by decide) (by decide)⟩

/-! ## C7: zero-finding pages -/

theorem calculateScore_append_pass (rows : List PageResult) (r : PageResult)
    (hr : r.status = "Pass") :
    calculateScore rows ≤ calculateScore (rows ++ [r]) ∧
    (rows ++ [r]).countP (fun x => x.status == "Fail")
      = rows.countP (fun x => x.status == "Fail") := by
  have hcnt : (rows ++ [r]).countP (fun x => x.status == "Fail")
      = rows.countP (fun x => x.status == "Fail") := by
    rw [List.countP_append, List.countP_cons, List.countP_nil]
    simp [hr]
  refine ⟨?_, hcnt⟩
  cases rows with
  | nil => exact (calculateScore_bounds [r]).1
  | cons a t =>
    have e1 := calculateScore_cons a t
    have e2 : calculateScore ((a :: t) ++ [r]) =
        max 0 (100 - 12 * ((((a :: t) ++ [r]).countP
          (fun x => x.status == "Fail")) : Int)) := calculateScore_cons a (t ++ [r])
    rw [e1, e2, hcnt]

/-- C7 (confirmed): a successfully fetched page whose rule evaluation
emits zero findings has text verdict `Compliant` (never `Risk`), its row
has status `Pass`, it does not count toward failCount, and appending it
to any report's rows never lowers the score. -/
theorem C7_zero_findings (h : Html) (isMain : Bool)
    (hz : (webAuditChecks h isMain).2 = []) :
    (webAuditChecks h isMain).1 = "Compliant" ∧
    ∀ (fetch : String → Except String Html) (url : String),
      fetch url = Except.ok h → h.statusOk = true →
      (webAuditPage fetch url isMain).status = "Pass" ∧
      ∀ rows : List PageResult,
        (rows ++ [webAuditPage fetch url isMain]).countP (fun r => r.status == "Fail")
          = rows.countP (fun r => r.status == "Fail") ∧
        calculateScore rows ≤ calculateScore (rows ++ [webAuditPage fetch url isMain]) := by
  have hfst : (webAuditChecks h isMain).1 = (webAnalyzeText h.visibleText).1 := rfl
  have hC : (webAnalyzeText h.visibleText).1 = "Compliant" := by
    rcases webAnalyzeText_fst h.visibleText with hC | hR
    · exact hC
    · exfalso
      have hmem : (webAnalyzeText h.visibleText).2 ∈ (webAuditChecks h isMain).2 := by
        rw [webAuditChecks_eq]
        dsimp only
        refine mem_issuesOf.mpr ⟨(!((webAnalyzeText h.visibleText).1 == "Risk"),
          (webAnalyzeText h.visibleText).2), ?_, ?_, rfl⟩
        · exact List.mem_append.mpr (Or.inr (List.mem_singleton.mpr rfl))
        · rw [hR]; rfl
      rw [hz] at hmem
      exact List.not_mem_nil _ hmem
  refine ⟨hfst.trans hC, ?_⟩
  intro fetch url hfetch hok
  have hstatus : (webAuditPage fetch url isMain).status = "Pass" := by
    unfold webAuditPage
    rw [hfetch]
    dsimp only
    rw [if_pos hok]
    simp [hz]
  refine ⟨hstatus, ?_⟩
  intro rows
  have hp := calculateScore_append_pass rows _ hstatus
  exact ⟨hp.2, hp.1⟩

/-- C7 witness: a fully compliant home page — zero findings, verdict
`Compliant`, status `Pass`. -/
theorem C7_zero_findings_witness :
    (webAuditChecks cleanHtml true).2 = [] ∧
    (webAuditChecks cleanHtml true).1 = "Compliant" ∧
    (webAuditPage (okFetch cleanHtml) "https://example.com" true).status = "Pass" :=
  ⟨by decide, (C7_zero_findings cleanHtml true (by decide)).1,
    ((C7_zero_findings cleanHtml true (by decide)).2 (okFetch cleanHtml)
      "https://example.com" rfl rfl).1⟩

/-! ## C8: finding emission order -/

/-- C8 counterexample: the web app's `audit_page` appends the red-flag
reason last (line 102), after the structural findings — a risky product
page missing schema and currency markers yields the suspicious-terms
finding in last position, not first as the spec's category order
requires. -/
theorem C8_cex :
    (webAuditChecks riskHtml false).2
      = ["Missing JSON-LD Product Schema", "Currency symbol missing near price",
         "Suspicious terms: guaranteed, 100% safe"] ∧
    (webAuditChecks riskHtml false).2.head?
      ≠ some "Suspicious terms: guaranteed, 100% safe" := by decide

/-- C8 (corrected): both rule evaluators emit findings in a fixed,
input-independent category order, so evaluation is deterministic — but
the two variants disagree on where the red-flag group sits: the
`engine.py` evaluator emits the red-flag finding first and then the
structural categories in their listed order, while the web-app evaluator
emits the structural categories in listed order and the red-flag finding
last. -/
theorem C8_finding_order (h : Html) :
    List.Sublist (engineAuditChecks h true).2
      ((engineAnalyzeContent h.visibleText).2 ::
        ["Missing Refund Policy", "Missing Shipping Policy", "Missing Privacy Policy",
         "Missing Terms Policy", "Missing Legal Policy", "No Contact Email"]) ∧
    List.Sublist (engineAuditChecks h false).2
      ((engineAnalyzeContent h.visibleText).2 ::
        ["Missing Schema", "Missing Currency"]) ∧
    List.Sublist (webAuditChecks h true).2
      (["Missing Refund Policy", "Missing Shipping Policy", "Missing Privacy Policy",
        "Missing Terms Policy", "Missing Legal Policy", "No contact email found"]
        ++ [(webAnalyzeText h.visibleText).2]) ∧
    List.Sublist (webAuditChecks h false).2
      (["Missing JSON-LD Product Schema", "Currency symbol missing near price"]
        ++ [(webAnalyzeText h.visibleText).2]) := by
  refine ⟨?_, ?_, ?_, ?_⟩
  · exact issuesOf_sublist ((!((engineAnalyzeContent h.visibleText).1 == "Risk"),
      (engineAnalyzeContent h.visibleText).2) :: engineMainChecks (lowerStr h.raw))
  · exact issuesOf_sublist ((!((engineAnalyzeContent h.visibleText).1 == "Risk"),
      (engineAnalyzeContent h.visibleText).2) :: engineProductChecks (lowerStr h.raw))
  · exact issuesOf_sublist (webMainChecks (lowerStr h.raw)
      ++ [(!((webAnalyzeText h.visibleText).1 == "Risk"),
           (webAnalyzeText h.visibleText).2)])
  · exact issuesOf_sublist (webProductChecks (lowerStr h.raw)
      ++ [(!((webAnalyzeText h.visibleText).1 == "Risk"),
           (webAnalyzeText h.visibleText).2)])

/-! ## C9: completion-order independence -/

theorem lookup_filterMap_sched {α β : Type} (f : α → β) (xs : List α) :
    ∀ (sched : List Nat) (i : Nat), i ∈ sched → (∀ j ∈ sched, j < xs.length) →
      List.lookup i (sched.filterMap (fun j => (xs.get? j).map (fun a => (j, f a))))
        = (xs.get? i).map f := by
  intro sched
  induction sched with
  | nil => intro i hi _; exact absurd hi (List.not_mem_nil i)
  | cons k tl ih =>
    intro i hi hlt
    have hk : k < xs.length := hlt k (List.mem_cons_self _ _)
    rcases hgk : xs.get? k with _ | a
    · exact absurd (List.get?_eq_none.mp hgk) (by omega)
    · rw [List.filterMap_cons, hgk]
      simp only [Option.map_some']
      by_cases hik : i = k
      · subst hik
        rw [List.get?_eq_getElem?] at hgk
        simp [List.lookup_cons, hgk]
      · have hbeq : (i == k) = false := beq_false_of_ne hik
        simp only [List.lookup_cons, hbeq]
        exact ih i
          (by rcases List.mem_cons.mp hi with rfl | hh
              · exact absurd rfl hik
              · exact hh)
          (fun j hj => hlt j (List.mem_cons_of_mem _ hj))

theorem filterMap_congr_mem {α β : Type} {F G : α → Option β} :
    ∀ {l : List α}, (∀ x ∈ l, F x = G x) → l.filterMap F = l.filterMap G := by
  intro l
  induction l with
  | nil => intro _; rfl
  | cons a t ih =>
    intro hfg
    rw [List.filterMap_cons, List.filterMap_cons,
      hfg a (List.mem_cons_self _ _), ih (fun x hx => hfg x (List.mem_cons_of_mem _ hx))]

theorem range_filterMap_get {α β : Type} (f : α → β) :
    ∀ (xs : List α),
      (List.range xs.length).filterMap (fun i => (xs.get? i).map f) = xs.map f := by
  intro xs
  induction xs with
  | nil => rfl
  | cons a t ih =>
    rw [List.length_cons, List.range_succ_eq_map, List.filterMap_cons, List.filterMap_map]
    have hcomp : ((fun i => ((a :: t).get? i).map f) ∘ Nat.succ)
        = fun i => (t.get? i).map f := by
      funext i
      simp [List.get?_cons_succ]
    rw [hcomp, ih]
    rfl

theorem executorMapSched_eq_map {α β : Type} (f : α → β) (xs : List α)
    (sched : List Nat) (hp : sched.Perm (List.range xs.length)) :
    executorMapSched f xs sched = xs.map f := by
  unfold executorMapSched
  dsimp only
  have hmem : ∀ j ∈ sched, j < xs.length := by
    intro j hj
    have := hp.mem_iff.mp hj
    simpa using this
  have hcg : (List.range xs.length).filterMap
      (fun i => List.lookup i (sched.filterMap
        (fun j => (xs.get? j).map (fun a => (j, f a)))))
      = (List.range xs.length).filterMap (fun i => (xs.get? i).map f) := by
    refine filterMap_congr_mem ?_
    intro i hi
    exact lookup_filterMap_sched f xs sched i (hp.mem_iff.mpr hi) hmem
  rw [hcg, range_filterMap_get]

/-- C9 (confirmed): whatever order the concurrent workers complete in
(any permutation of the slot indices), the report's rows are the home
result followed by the product results in candidate order — completion
order never changes the output. -/
theorem C9_ordering (env : Env) (eng : Engine)
    (fetch : String → Except String Html) (sched : List Nat) (mainHtml : Html)
    (hm : fetch eng.baseUrl = Except.ok mainHtml)
    (hp : sched.Perm (List.range (getProductLinks env eng mainHtml.hrefs).length)) :
    runFullAuditSched env eng fetch sched = runFullAudit env eng fetch ∧
    ∃ rep, runFullAudit env eng fetch = Except.ok rep ∧
      rep.rows = webAuditPage fetch eng.baseUrl true ::
        (getProductLinks env eng mainHtml.hrefs).map
          (fun u => webAuditPage fetch u false) := by
  have hx := executorMapSched_eq_map (fun u => webAuditPage fetch u false)
    (getProductLinks env eng mainHtml.hrefs) sched hp
  constructor
  · unfold runFullAuditSched runFullAudit
    rw [hm]
    dsimp only
    rw [hx]
  · have hrun : runFullAudit env eng fetch = Except.ok
        { domain := eng.domain,
          score := calculateScore (webAuditPage fetch eng.baseUrl true ::
            (getProductLinks env eng mainHtml.hrefs).map
              (fun u => webAuditPage fetch u false)),
          rows := webAuditPage fetch eng.baseUrl true ::
            (getProductLinks env eng mainHtml.hrefs).map
              (fun u => webAuditPage fetch u false) } := by
      unfold runFullAudit
      rw [hm]
    exact ⟨_, hrun, rfl⟩

/-- C9 witness: a two-product-link page audited under the reversed
completion schedule `[1, 0]` yields the same report as the sequential
reference run. -/
theorem C9_ordering_witness :
    runFullAuditSched sampleEnv sampleEngine (okFetch twoLinkHtml) [1, 0]
      = runFullAudit sampleEnv sampleEngine (okFetch twoLinkHtml) :=
  (C9_ordering sampleEnv sampleEngine (okFetch twoLinkHtml) [1, 0] twoLinkHtml
    rfl (by decide)).1
